import Mathlib

/-!
Verification of `examples/programs/workload.py`.

The script is embedded shallowly:

* `find_primes` becomes a pure function from an (unbounded) integer limit to
  the list of accepted candidates; the `for`/`append` loop over
  `range(2, limit)` is a filter over that range, and the inner loop with its
  `break` is a short-circuiting `List.all` over `range(2, int(num ** 0.5) + 1)`.
* The inner-loop bound `int(num ** 0.5)` is modelled as the exact integer
  square root, realised by the executable `int_sqrt` (proved equal to
  `Nat.sqrt` below).  For every candidate value that fits in an IEEE-754
  double without rounding this agrees with the Python expression.
* `main` becomes a function from the (parsed) command line to an exit code
  together with the list of stdout lines, each line tagged with the flush
  flag passed to `print`.
-/

/-- Binary search bracket step for the integer square root: maintains
`lo * lo ≤ n < hi * hi` and narrows the bracket until `hi ≤ lo + 1`,
spending one unit of fuel per step. -/
def isqrtGo (n : Nat) : Nat → Nat → Nat → Nat
  | 0, lo, _ => lo
  | fuel+1, lo, hi =>
    if lo + 1 < hi then
      if ((lo + hi) / 2) * ((lo + hi) / 2) ≤ n then
        isqrtGo n fuel ((lo + hi) / 2) hi
      else
        isqrtGo n fuel lo ((lo + hi) / 2)
    else lo

/-- Executable integer square root; models the inner-loop bound
`int(num ** 0.5)` of the source, the square root taken exactly
(`int_sqrt_eq_sqrt` identifies it with `Nat.sqrt`). -/
def int_sqrt (n : Nat) : Nat := isqrtGo n (n + 1) 0 (n + 1)

/-- Python `range(a, b)` for natural bounds: the list `[a, a+1, ..., b-1]`,
empty when `b ≤ a`. -/
def pyRangeN (a b : Nat) : List Nat := List.range' a (b - a)

/-- Python `range(a, b)` with an integer upper bound, as used by the outer
loop `for num in range(2, limit)`: empty when `b ≤ a`. -/
def pyRange (a : Nat) (b : Int) : List Nat := List.range' a (b - a).toNat

/-- The body of the outer loop of `find_primes`: the `is_prime` flag survives
the inner loop `for i in range(2, int(num ** 0.5) + 1)` iff no `i` in that
range divides `num` evenly (the `break` is the short-circuit of `List.all`). -/
def is_prime (num : Nat) : Bool :=
  (pyRangeN 2 (int_sqrt num + 1)).all (fun i => num % i != 0)

/-- `find_primes(limit)` from workload.py: the candidates of
`range(2, limit)` that survive trial division, in loop order. -/
def find_primes (limit : Int) : List Nat :=
  (pyRange 2 limit).filter is_prime

/-- The summary line of `main`: the f-string
`f"Found {len(primes)} prime numbers up to {args.limit}"`. -/
def foundLine (count : Nat) (limit : Int) : String :=
  "Found " ++ toString count ++ " prime numbers up to " ++ toString limit

/-- The stdout of a successful `main` run with parsed limit `limit`:
one entry per `print` call, in program order, paired with the `flush`
keyword passed to that call. -/
def mainOutput (limit : Int) : List (String × Bool) :=
  [("Starting prime calculation...", false),
   ("__WORK_START__", true),
   ("__WORK_END__", true),
   (foundLine (find_primes limit).length limit, false)]

/-- Accumulate the numeric value of a digit string; fails on the first
non-digit character or on an empty digit string. -/
def parseDigits (ds : List Char) : Option Nat :=
  match ds with
  | [] => none
  | _ =>
    ds.foldl
      (fun acc c =>
        acc.bind (fun a => if c.isDigit then some (10 * a + (c.toNat - 48)) else none))
      (some 0)

/-- Python `int(s)` as used by argparse for `type=int`, modelled for plain
decimal tokens: an optional sign followed by one or more ASCII digits
(Python additionally strips whitespace and allows underscore separators;
those forms are not modelled). -/
def parseDecInt (s : String) : Option Int :=
  match s.data with
  | '-' :: ds => (parseDigits ds).map (fun v => -(v : Int))
  | '+' :: ds => (parseDigits ds).map (fun v => (v : Int))
  | ds => (parseDigits ds).map (fun v => (v : Int))

/-- The value argparse assigns to `args.limit`: the default `50000` when the
flag is absent, otherwise the `int` conversion of the given token. -/
def parsedLimit (arg : Option String) : Option Int :=
  match arg with
  | none => some 50000
  | some s => parseDecInt s

/-- Result of one invocation of the script: process exit status and the
stdout lines (with their flush flags). -/
structure RunResult where
  exitCode : Nat
  out : List (String × Bool)
deriving DecidableEq

/-- One invocation of `main`, given the `-n`/`--limit` token (or `none` when
the flag is absent).  A malformed token makes argparse print a usage
message to stderr and exit with status 2 before any stdout output; a parsed
limit runs the straight-line body of `main`. -/
def main_run (arg : Option String) : RunResult :=
  match parsedLimit arg with
  | some n => { exitCode := 0, out := mainOutput n }
  | none => { exitCode := 2, out := [] }

/-- Effect-instrumented `find_primes`: alongside the result, the list of
lines the call prints.  The body of `find_primes` contains no `print`
statement and touches no non-local state, so the trace is empty by
construction. -/
def find_primesEff (limit : Int) : List Nat × List String :=
  ((pyRange 2 limit).filter is_prime, [])

/-- Number of iterations of the outer loop `for num in range(2, limit)`. -/
def outer_iterations (limit : Int) : Nat := (pyRange 2 limit).length

/-- Number of divisibility tests the inner loop
`for i in range(2, int(num ** 0.5) + 1)` performs on candidate `num` when no
divisor is found (with a divisor the `break` only makes it shorter). -/
def inner_iterations (num : Nat) : Nat := (pyRangeN 2 (int_sqrt num + 1)).length

theorem isqrtGo_spec (n : Nat) :
    ∀ fuel lo hi, lo * lo ≤ n → n < hi * hi → hi ≤ lo + fuel + 1 →
      isqrtGo n fuel lo hi * isqrtGo n fuel lo hi ≤ n ∧
        n < (isqrtGo n fuel lo hi + 1) * (isqrtGo n fuel lo hi + 1) := by
  intro fuel
  induction fuel with
  | zero =>
    intro lo hi h1 h2 h3
    simp only [isqrtGo]
    refine ⟨h1, lt_of_lt_of_le h2 (Nat.mul_le_mul ?_ ?_)⟩ <;> omega
  | succ fuel ih =>
    intro lo hi h1 h2 h3
    simp only [isqrtGo]
    by_cases hc : lo + 1 < hi
    · rw [if_pos hc]
      by_cases hm : ((lo + hi) / 2) * ((lo + hi) / 2) ≤ n
      · rw [if_pos hm]
        exact ih _ _ hm h2 (by omega)
      · rw [if_neg hm]
        exact ih _ _ h1 (Nat.lt_of_not_le hm) (by omega)
    · rw [if_neg hc]
      refine ⟨h1, lt_of_lt_of_le h2 (Nat.mul_le_mul ?_ ?_)⟩ <;> omega

theorem int_sqrt_eq_sqrt (n : Nat) : int_sqrt n = Nat.sqrt n := by
  have h := isqrtGo_spec n (n + 1) 0 (n + 1) (by simp) (by nlinarith) (by omega)
  exact Nat.eq_sqrt.mpr ⟨h.1, h.2⟩

theorem mem_pyRange {a : Nat} {b : Int} {m : Nat} :
    m ∈ pyRange a b ↔ a ≤ m ∧ (m : Int) < b := by
  rw [pyRange, List.mem_range'_1]
  omega

theorem is_prime_iff {n : Nat} (h2 : 2 ≤ n) : is_prime n = true ↔ Nat.Prime n := by
  rw [Nat.prime_def_le_sqrt]
  simp only [is_prime, pyRangeN, List.all_eq_true, List.mem_range'_1, int_sqrt_eq_sqrt,
    ne_eq, bne_iff_ne]
  constructor
  · intro h
    refine ⟨h2, fun m hm1 hm2 hdvd => ?_⟩
    have hmod : n % m = 0 := Nat.dvd_iff_mod_eq_zero.mp hdvd
    exact h m ⟨hm1, by omega⟩ hmod
  · rintro ⟨-, h⟩ m ⟨hm1, hm2⟩ hmod
    exact h m hm1 (by omega) (Nat.dvd_iff_mod_eq_zero.mpr hmod)

/-- The primes below 224, i.e. up to the integer square root of 49999. -/
def primesTo223 : List Nat :=
  [2, 3, 5, 7, 11, 13, 17, 19, 23, 29, 31, 37, 41, 43, 47, 53, 59, 61, 67, 71,
   73, 79, 83, 89, 97, 101, 103, 107, 109, 113, 127, 131, 137, 139, 149, 151,
   157, 163, 167, 173, 179, 181, 191, 193, 197, 199, 211, 223]

/-- The product of the primes below 224; a composite below 50000 always
shares a factor with it, a prime of at least 224 never does. -/
def P223 : Nat :=
  367009731827331916465034565550136732339800312955331782619462457039988073311157667212930

theorem P223_eq : P223 = primesTo223.prod := rfl

theorem primesTo223_bounds : ∀ p ∈ primesTo223, 2 ≤ p ∧ p ≤ 223 := by decide

set_option maxRecDepth 20000 in
theorem primesTo223_complete_aux :
    ∀ m, m < 224 → 2 ≤ m → is_prime m = true → m ∈ primesTo223 := by decide

theorem prime_dvd_list_prod {q : Nat} (hq : Nat.Prime q) :
    ∀ l : List Nat, q ∣ l.prod → ∃ p ∈ l, q ∣ p := by
  intro l
  induction l with
  | nil =>
    intro h
    rw [List.prod_nil] at h
    exact absurd (Nat.eq_one_of_dvd_one h) hq.ne_one
  | cons a t ih =>
    intro h
    rw [List.prod_cons] at h
    rcases hq.dvd_mul.mp h with h | h
    · exact ⟨a, List.mem_cons_self a t, h⟩
    · rcases ih h with ⟨p, hp, hd⟩
      exact ⟨p, List.mem_cons_of_mem a hp, hd⟩

theorem coprime_P223_iff {n : Nat} (h1 : 224 ≤ n) (h2 : n < 50000) :
    Nat.gcd P223 n = 1 ↔ Nat.Prime n := by
  constructor
  · intro hg
    by_contra hnp
    have hmf : Nat.Prime n.minFac := Nat.minFac_prime (by omega)
    have hsq : n.minFac ^ 2 ≤ n := Nat.minFac_sq_le_self (by omega) hnp
    have hle : n.minFac ≤ 223 := by
      by_contra hgt
      push_neg at hgt
      have : 224 * 224 ≤ n.minFac * n.minFac := Nat.mul_le_mul hgt hgt
      rw [pow_two] at hsq
      omega
    have hprime : is_prime n.minFac = true := (is_prime_iff hmf.two_le).mpr hmf
    have hmem : n.minFac ∈ primesTo223 :=
      primesTo223_complete_aux _ (by omega) hmf.two_le hprime
    have hdP : n.minFac ∣ P223 := P223_eq ▸ List.dvd_prod hmem
    have hdg : n.minFac ∣ Nat.gcd P223 n := Nat.dvd_gcd hdP (Nat.minFac_dvd n)
    rw [hg] at hdg
    have := Nat.eq_one_of_dvd_one hdg
    exact hmf.ne_one this
  · intro hp
    rcases hp.eq_one_or_self_of_dvd (Nat.gcd P223 n) (Nat.gcd_dvd_right _ _) with h | h
    · exact h
    · exfalso
      have hdvd : n ∣ P223 := h ▸ Nat.gcd_dvd_left P223 n
      rcases prime_dvd_list_prod hp primesTo223 (P223_eq ▸ hdvd) with ⟨p, hpmem, hd⟩
      have hb := primesTo223_bounds p hpmem
      have := Nat.le_of_dvd (by omega) hd
      omega

/-- A candidate of at least 224 passes iff it shares no factor with `P223`. -/
def gcd_hit (n : Nat) : Bool := Nat.gcd P223 n == 1

/-- Balanced divide-and-conquer count of the `f`-positives in
`[a, a + n)`; the first argument bounds the recursion depth. -/
def countD (f : Nat → Bool) : Nat → Nat → Nat → Nat
  | 0, a, n => if n = 1 then (if f a then 1 else 0) else 0
  | d+1, a, n =>
    if n ≤ 1 then (if n = 1 then (if f a then 1 else 0) else 0)
    else countD f d a (n / 2) + countD f d (a + n / 2) (n - n / 2)

theorem range'_split (a m n : Nat) (h : m ≤ n) :
    List.range' a n = List.range' a m ++ List.range' (a + m) (n - m) := by
  have h1 := List.range'_append a m (n - m) 1
  rw [one_mul] at h1
  have h2 : n - m + m = n := by omega
  rw [h2] at h1
  exact h1.symm

theorem range'_prefix (s : Nat) {m n : Nat} (h : m ≤ n) :
    List.range' s m <+: List.range' s n := by
  rw [range'_split s m n h]
  exact List.prefix_append _ _

theorem pyRange_eq_nil {a : Nat} {b : Int} (h : b ≤ a) : pyRange a b = [] := by
  rw [pyRange]
  have h0 : (b - a).toNat = 0 := by omega
  rw [h0, List.range'_zero]

theorem countD_leaf (f : Nat → Bool) (d a n : Nat) (hn : n ≤ 1) :
    countD f d a n = ((List.range' a n).filter f).length := by
  interval_cases n
  · cases d <;> simp [countD]
  · cases d <;> simp [countD, List.range'_one, List.filter_singleton] <;>
      by_cases h : f a <;> simp [h]

theorem countD_eq (f : Nat → Bool) :
    ∀ d a n, n ≤ 2 ^ d → countD f d a n = ((List.range' a n).filter f).length := by
  intro d
  induction d with
  | zero =>
    intro a n hn
    exact countD_leaf f 0 a n (by simpa using hn)
  | succ d ih =>
    intro a n hn
    by_cases h1 : n ≤ 1
    · exact countD_leaf f (d + 1) a n h1
    · have hpow : 2 ^ (d + 1) = 2 * 2 ^ d := by rw [pow_succ]; ring
      have hhalf : n / 2 ≤ 2 ^ d := by omega
      have hrest : n - n / 2 ≤ 2 ^ d := by omega
      rw [countD, if_neg h1, ih _ _ hhalf, ih _ _ hrest,
        range'_split a (n / 2) n (by omega), List.filter_append, List.length_append]

theorem gcd_hit_eq_is_prime {n : Nat} (h1 : 224 ≤ n) (h2 : n < 50000) :
    is_prime n = gcd_hit n := by
  rw [Bool.eq_iff_iff, is_prime_iff (by omega)]
  simp only [gcd_hit, beq_iff_eq]
  exact (coprime_P223_iff h1 h2).symm

set_option maxRecDepth 20000 in
theorem count_below_224 : ((List.range' 2 222).filter is_prime).length = 48 := by decide

set_option maxRecDepth 20000 in
set_option maxHeartbeats 4000000 in
theorem count_224_to_50000 : countD gcd_hit 16 224 49776 = 5085 := by decide

theorem find_primes_50000_len : (find_primes 50000).length = 5133 := by
  have e1 : find_primes 50000 = (List.range' 2 49998).filter is_prime := rfl
  have hbig : (List.range' 224 49776).filter is_prime
      = (List.range' 224 49776).filter gcd_hit :=
    List.filter_congr (fun x hx => by
      rw [List.mem_range'_1] at hx
      exact gcd_hit_eq_is_prime (by omega) (by omega))
  have e2 : (2 : Nat) + 222 = 224 := by norm_num
  have e3 : (49998 : Nat) - 222 = 49776 := by norm_num
  rw [e1, range'_split 2 222 49998 (by omega), e2, e3, List.filter_append,
    List.length_append, hbig, ← countD_eq gcd_hit 16 224 49776 (by norm_num),
    count_below_224, count_224_to_50000]

theorem foundLine_ne_start (c : Nat) (l : Int) : foundLine c l ≠ "__WORK_START__" := by
  intro h
  have h2 := congrArg String.data h
  simp [foundLine, String.data_append] at h2

theorem foundLine_ne_end (c : Nat) (l : Int) : foundLine c l ≠ "__WORK_END__" := by
  intro h
  have h2 := congrArg String.data h
  simp [foundLine, String.data_append] at h2

/-- C1: for every integer limit of at least 2, `find_primes` returns the
strictly increasing sequence of exactly the prime numbers strictly below the
limit — every element is prime and every prime below the limit appears. -/
theorem find_primes_correct (limit : Int) (h : 2 ≤ limit) :
    List.Sorted (· < ·) (find_primes limit) ∧
      ∀ p : Nat, p ∈ find_primes limit ↔ Nat.Prime p ∧ (p : Int) < limit := by
  constructor
  · have hp : List.Pairwise (· < ·) (List.range' 2 ((limit - 2).toNat)) :=
      List.pairwise_lt_range' 2 ((limit - 2).toNat) 1 (by norm_num)
    exact hp.filter is_prime
  · intro p
    rw [find_primes, List.mem_filter, mem_pyRange]
    constructor
    · rintro ⟨⟨h2, hlt⟩, hp⟩
      exact ⟨(is_prime_iff h2).mp hp, hlt⟩
    · rintro ⟨hp, hlt⟩
      exact ⟨⟨hp.two_le, hlt⟩, (is_prime_iff hp.two_le).mpr hp⟩

/-- Witness for C1: the characterisation instantiated at limit 10. -/
theorem find_primes_correct_witness :
    (2 : Int) ≤ 10 ∧
      (List.Sorted (· < ·) (find_primes 10) ∧
        ∀ p : Nat, p ∈ find_primes 10 ↔ Nat.Prime p ∧ (p : Int) < 10) :=
  ⟨by norm_num, find_primes_correct 10 (by norm_num)⟩

/-- C3: on every successful run (a parsed limit), the start marker line and
the end marker line each occur exactly once in stdout, both flushed, the
start marker immediately before the end marker (so nothing in between), as
pinned down by the full output listing. -/
theorem marker_protocol (arg : Option String) (n : Int)
    (h : parsedLimit arg = some n) :
    (main_run arg).out.countP (fun e => e.1 == "__WORK_START__") = 1 ∧
    (main_run arg).out.countP (fun e => e.1 == "__WORK_END__") = 1 ∧
    (main_run arg).out.filter
        (fun e => e.1 == "__WORK_START__" || e.1 == "__WORK_END__")
      = [("__WORK_START__", true), ("__WORK_END__", true)] ∧
    (main_run arg).out =
      [("Starting prime calculation...", false),
       ("__WORK_START__", true),
       ("__WORK_END__", true),
       (foundLine (find_primes n).length n, false)] := by
  have e : (main_run arg).out = mainOutput n := by simp [main_run, h, mainOutput]
  rw [e]
  refine ⟨?_, ?_, ?_, rfl⟩ <;>
    simp [mainOutput, List.countP_cons, List.filter_cons,
      foundLine_ne_start, foundLine_ne_end]

/-- Witness for C3: the marker protocol on the default run. -/
theorem marker_protocol_witness :
    parsedLimit none = some 50000 ∧
      ((main_run none).out.countP (fun e => e.1 == "__WORK_START__") = 1 ∧
       (main_run none).out.countP (fun e => e.1 == "__WORK_END__") = 1 ∧
       (main_run none).out.filter
           (fun e => e.1 == "__WORK_START__" || e.1 == "__WORK_END__")
         = [("__WORK_START__", true), ("__WORK_END__", true)] ∧
       (main_run none).out =
         [("Starting prime calculation...", false),
          ("__WORK_START__", true),
          ("__WORK_END__", true),
          (foundLine (find_primes 50000).length 50000, false)]) :=
  ⟨rfl, marker_protocol none 50000 rfl⟩

/-- C4: a token that is not a valid integer makes the run terminate with a
non-zero exit status and produce no stdout at all — in particular neither
marker line. -/
theorem invalid_limit_no_output (s : String) (h : parseDecInt s = none) :
    (main_run (some s)).exitCode ≠ 0 ∧ (main_run (some s)).out = [] := by
  simp [main_run, parsedLimit, h]

/-- Witness for C4: the run with the malformed token abc. -/
theorem invalid_limit_no_output_witness :
    parseDecInt "abc" = none ∧
      ((main_run (some "abc")).exitCode ≠ 0 ∧ (main_run (some "abc")).out = []) :=
  ⟨rfl, invalid_limit_no_output "abc" rfl⟩

/-- C5: `find_primes 10` is exactly `[2, 3, 5, 7]`, and `find_primes 50000`
has exactly 5133 elements. -/
theorem find_primes_reference_values :
    find_primes 10 = [2, 3, 5, 7] ∧ (find_primes 50000).length = 5133 :=
  ⟨rfl, find_primes_50000_len⟩

/-- C6: every limit of at most 2 — including zero and all negative
integers — yields the empty list (and, the embedding being total, no
exception). -/
theorem find_primes_empty_of_le_two (limit : Int) (h : limit ≤ 2) :
    find_primes limit = [] := by
  have hnil : pyRange 2 limit = [] := pyRange_eq_nil (by omega)
  rw [find_primes, hnil, List.filter_nil]

/-- Witness for C6 at limits 0, -7 and 2. -/
theorem find_primes_empty_witness :
    ((0 : Int) ≤ 2 ∧ find_primes 0 = []) ∧
      ((-7 : Int) ≤ 2 ∧ find_primes (-7) = []) ∧
      ((2 : Int) ≤ 2 ∧ find_primes 2 = []) :=
  ⟨⟨by norm_num, find_primes_empty_of_le_two 0 (by norm_num)⟩,
   ⟨by norm_num, find_primes_empty_of_le_two (-7) (by norm_num)⟩,
   ⟨by norm_num, find_primes_empty_of_le_two 2 (by norm_num)⟩⟩

/-- C7: on every successful run, `main` prints, in order: the banner, the
flushed start marker, the flushed end marker, and the summary line built
from the length of `find_primes` at the parsed limit — and exits with 0.
The parsed limit is the default 50000 when the flag is absent. -/
theorem main_success_output (arg : Option String) (n : Int)
    (h : parsedLimit arg = some n) :
    main_run arg =
      ⟨0, [("Starting prime calculation...", false),
           ("__WORK_START__", true), ("__WORK_END__", true),
           (foundLine (find_primes n).length n, false)]⟩ := by
  simp [main_run, h, mainOutput]

/-- Witness for C7: the default run. -/
theorem main_success_output_witness :
    parsedLimit none = some 50000 ∧
      main_run none =
        ⟨0, [("Starting prime calculation...", false),
             ("__WORK_START__", true), ("__WORK_END__", true),
             (foundLine (find_primes 50000).length 50000, false)]⟩ :=
  ⟨rfl, main_success_output none 50000 rfl⟩

/-- C8: `find_primes` prints nothing, mutates nothing outside its own
locals, and is deterministic — its result depends only on the limit. -/
theorem find_primes_pure (a b : Int) (h : a = b) :
    (find_primesEff a).2 = [] ∧ (find_primesEff a).1 = find_primes a ∧
      find_primes a = find_primes b :=
  ⟨rfl, rfl, by rw [h]⟩

/-- Witness for C8 at limit 7. -/
theorem find_primes_pure_witness :
    (7 : Int) = 7 ∧
      ((find_primesEff 7).2 = [] ∧ (find_primesEff 7).1 = find_primes 7 ∧
        find_primes 7 = find_primes 7) :=
  ⟨rfl, find_primes_pure 7 7 rfl⟩

/-- C9: raising the limit only extends the result: for limits a ≤ b, the
list for a is a prefix of the list for b. -/
theorem find_primes_monotone (a b : Int) (h : a ≤ b) :
    find_primes a <+: find_primes b := by
  have hr : pyRange 2 a <+: pyRange 2 b := by
    simp only [pyRange]
    exact range'_prefix 2 (by omega)
  exact hr.filter is_prime

/-- Witness for C9 at limits 5 and 12. -/
theorem find_primes_monotone_witness :
    (5 : Int) ≤ 12 ∧ find_primes 5 <+: find_primes 12 :=
  ⟨by norm_num, find_primes_monotone 5 12 (by norm_num)⟩

/-- C10: the function is total and its loops are bounded: the outer loop
runs exactly `(limit - 2).toNat` times (so at most `limit - 2` when that is
non-negative, otherwise zero) and the inner loop performs at most
`√num - 1` divisibility tests per candidate. -/
theorem find_primes_loop_bounds (limit : Int) (num : Nat) :
    outer_iterations limit = (limit - 2).toNat ∧
      inner_iterations num = Nat.sqrt num - 1 ∧
      (find_primes limit).length ≤ outer_iterations limit := by
  refine ⟨?_, ?_, ?_⟩
  · rw [outer_iterations, pyRange, List.length_range']
    omega
  · have h1 : inner_iterations num = int_sqrt num + 1 - 2 := by
      rw [inner_iterations, pyRangeN, List.length_range']
    rw [h1, int_sqrt_eq_sqrt]
    omega
  · exact List.length_filter_le _ _
